import Mathlib

/-!
Verification of the translation-API job orchestrator (`src/translate_api.py`).

The development shallowly embeds the code of `translate_api.py`:

* `Task` mirrors the Python class `TranslationTask` (the mutable fields
  `status`, `progress`, `result_file`, `error` plus the immutable identity
  fields; `created_at` is omitted because no claim mentions its value).
* `process_translation_task` mirrors the Python worker function of the same
  name.  The remote DeepL provider and real time are abstracted into an
  `Env`: the outcome of the submit call, a finite script of poll responses
  each paired with the elapsed whole-seconds at which the poll is observed
  (Python computes `elapsed_time = time.time() - start_time`, a non-negative
  float; we model whole seconds), and the outcome of the result fetch.
* Every single Python field assignment to the task produces one snapshot in
  the returned trace, because the task object is shared with concurrent
  status readers: the trace is exactly the sequence of states a reader can
  observe.
* Filesystem effects are modelled as the list of files the run creates in
  the upload folder, and the `finally: cleanup_file(...)` as a counter of
  cleanup invocations.
* `download_file_route` mirrors the Flask download endpoint; its boolean
  result records whether the filesystem lookup (`send_from_directory`) was
  reached.

Python's `re` character class `\w` is modelled on the ASCII alphanumerics
plus underscore (`Char.isAlphanum`); all concrete inputs used below are
ASCII, where the two coincide.
-/

namespace TranslateAPI

/-! ### String utilities (embedding `str.strip`, `in`, `os.path.splitext`) -/

/-- Does `pat` occur at the head of `l`? -/
def beginsWith : List Char → List Char → Bool
  | [], _ => true
  | _ :: _, [] => false
  | p :: ps, c :: cs => p = c && beginsWith ps cs

/-- Does `pat` occur as a contiguous substring of `l`?  (Python `pat in s`.) -/
def occursIn (pat : List Char) : List Char → Bool
  | [] => beginsWith pat []
  | c :: cs => beginsWith pat (c :: cs) || occursIn pat cs

/-- Python `".." in s`, specialised for the traversal check. -/
def hasDotDot : List Char → Bool
  | a :: b :: rest => (a = '.' && b = '.') || hasDotDot (b :: rest)
  | _ => false

/-- Remove trailing underscores (the right half of Python `s.strip('_')`). -/
def dropTrailingUnders : List Char → List Char
  | [] => []
  | c :: cs =>
    match dropTrailingUnders cs with
    | [] => if c = '_' then [] else [c]
    | rest => c :: rest

/-- Python `s.strip('_')`. -/
def stripUnders (l : List Char) : List Char :=
  dropTrailingUnders (l.dropWhile (fun c => c = '_'))

/-- Index of the last `'.'` in the list, if any. -/
def lastDotIdx : List Char → Option Nat
  | [] => none
  | c :: cs =>
    match lastDotIdx cs with
    | some i => some (i + 1)
    | none => if c = '.' then some 0 else none

/-- Python `os.path.splitext` on a bare file name (no directory separators):
split at the last dot unless every character before it is a dot. -/
def splitext (s : String) : String × String :=
  match lastDotIdx s.data with
  | none => (s, "")
  | some i =>
    if (s.data.take i).all (fun c => c = '.') then (s, "")
    else (String.mk (s.data.take i), String.mk (s.data.drop i))

/-- Python `\w` (ASCII fragment): alphanumeric or underscore. -/
def isWordChar (c : Char) : Bool := c.isAlphanum || c = '_'

/-! ### Output-filename derivation (`process_translation_task`, done branch)

`safe_base_name = re.sub(r'[^\w\-]', '_', base_name)` followed by
`safe_base_name.strip('_')`, then
`f"{safe_base_name}_translated_{task.target_lang}{ext}"`. -/

/-- One character of `re.sub(r'[^\w\-]', '_', ...)`. -/
def sanitizeBaseChar (c : Char) : Char :=
  if isWordChar c || c = '-' then c else '_'

/-- The output file name the worker derives for a given original file name
and (raw, client-supplied) target language. -/
def outputFilename (filename target_lang : String) : String :=
  let base := (splitext filename).1
  let ext := (splitext filename).2
  let safe := String.mk (stripUnders (base.data.map sanitizeBaseChar))
  safe ++ "_translated_" ++ target_lang ++ ext

/-! ### Download endpoint (`download_file_route`) -/

/-- One character of `re.sub(r'[^\w\-\.]', '_', ...)` (download route). -/
def sanitizeDlChar (c : Char) : Char :=
  if isWordChar c || c = '-' || c = '.' then c else '_'

/-- Python `s.startswith(("/", "\\"))`. -/
def headIsSep : List Char → Bool
  | c :: _ => c = '/' || c = '\\'
  | [] => false

/-- Result of the download endpoint. -/
inductive DlResult where
  | okFile (name : String)
  | badRequest
  | notFound
deriving Repr, DecidableEq

/-- The Flask `/download/<filename>` handler.  `folder` is the set of file
names present in the upload folder.  The second component records whether
the filesystem lookup (`send_from_directory`) was performed. -/
def download_file_route (folder : List String) (filename : String) :
    DlResult × Bool :=
  let safe := String.mk (stripUnders (filename.data.map sanitizeDlChar))
  if hasDotDot safe.data || headIsSep safe.data then
    (DlResult.badRequest, false)
  else if folder.contains safe then
    (DlResult.okFile safe, true)
  else
    (DlResult.notFound, true)

/-! ### Language map (`LANGUAGE_MAP`) -/

def LANGUAGE_MAP : List (String × String) := [("pt", "PT"), ("en", "EN-US")]

/-- Python `LANGUAGE_MAP.get(k, dflt)`. -/
def languageMapGet (k dflt : String) : String :=
  match LANGUAGE_MAP.lookup k with
  | some v => v
  | none => dflt

/-! ### The job record (`TranslationTask`) -/

/-- The Python class `TranslationTask`.  `status` is one of `"pending"`,
`"processing"`, `"completed"`, `"error"` exactly as in the source (the
spec's phases Completed/Failed correspond to `"completed"`/`"error"`);
`result_file`/`error` start as `None`. -/
structure Task where
  task_id : String
  filename : String
  target_lang : String
  status : String
  progress : Int
  result_file : Option String
  error : Option String
deriving Repr, DecidableEq

/-- `TranslationTask.__init__`. -/
def newTask (task_id filename target_lang : String) : Task :=
  { task_id := task_id, filename := filename, target_lang := target_lang,
    status := "pending", progress := 0, result_file := none, error := none }

/-! ### The environment: remote provider and clock -/

/-- One response of `check_document_status` (the DeepL document-status
JSON): the `status` field (`''` when absent) and the optional
`seconds_remaining` and `message` fields. -/
structure PollR where
  status : String
  secondsRemaining : Option Int
  message : Option String
deriving Repr, DecidableEq

/-- Outcome of `download_translated_document`.  `errNoFile`: the HTTP
request itself failed, no output file was created.  `errPartial`: the
streaming write failed after `open(output_path, 'wb')` created the file,
leaving a partial output file on disk. -/
inductive FetchOutcome where
  | ok
  | errNoFile (msg : String)
  | errPartial (msg : String)
deriving Repr, DecidableEq

/-- Outcome of `upload_document_to_deepl`: success, or the exception
message on failure. -/
inductive SubmitOutcome where
  | accepted
  | failed (msg : String)
deriving Repr, DecidableEq

/-- The remote provider and clock, abstracted: the submit outcome, a finite
script of poll responses paired with the elapsed whole seconds since
`start_time` at which each poll's response is processed, and the fetch
outcome. -/
structure Env where
  submitR : SubmitOutcome
  polls : List (Nat × PollR)
  fetch : FetchOutcome
deriving Repr, DecidableEq

/-- Provider operations issued by the worker, in order. -/
inductive Op where
  | submitOp (sourceLang targetLang : String)
  | pollOp
  | fetchOp
deriving Repr, DecidableEq

/-- Everything observable about one run of the worker: the trace of task
states (one snapshot per Python field assignment, in order), the provider
operations issued, the output files created in the upload folder, how many
times `cleanup_file` ran, whether the run exited (a run whose poll script
is exhausted is still inside the `while True` loop), and the task's state
when the run ends (or at the point the script ran out). -/
structure RunOut where
  trace : List Task
  ops : List Op
  files : List String
  cleanups : Nat
  finished : Bool
  final : Task
deriving Repr, DecidableEq

/-! ### The worker (`process_translation_task`) -/

/-- A sequence of `task.progress = v` assignments, one snapshot each;
returns the snapshots and the resulting task. -/
def progSteps (t : Task) : List Int → List Task × Task
  | [] => ([], t)
  | v :: vs =>
    let t1 := { t with progress := v }
    let r := progSteps t1 vs
    (t1 :: r.1, r.2)

/-- `[lo, lo+1, ..., lo+n-1]` — the values of Python `range(lo, lo+n)`. -/
def rangeInts (lo : Int) : Nat → List Int
  | 0 => []
  | n + 1 => lo :: rangeInts (lo + 1) n

/-- The `except` block: `task.status = 'error'; task.error = str(e);
task.progress = 0`, one snapshot per assignment. -/
def failSteps (t : Task) (msg : String) : List Task × Task :=
  let t1 := { t with status := "error" }
  let t2 := { t1 with error := some msg }
  let t3 := { t2 with progress := 0 }
  ([t1, t2, t3], t3)

/-- The cosmetic ramp of the done branch:
`for _ in range(steps): task.progress = min(90, task.progress + 1)`. -/
def doneRamp (t : Task) : Nat → List Task × Task
  | 0 => ([], t)
  | n + 1 =>
    let t1 := { t with progress := min 90 (t.progress + 1) }
    let r := doneRamp t1 n
    (t1 :: r.1, r.2)

/-- The polling-phase progress estimate, exactly the Python expression
`int(min(90, max(20, 20 + (elapsed / max(elapsed + seconds_remaining,
min_processing_time)) * 70)))` with `min_processing_time = 20`, evaluated
over the rationals and floored (for the non-negative values arising here,
Python's `int` truncation, real arithmetic, and Lean's `Int` division
agree). -/
def pollEstimate (elapsed sr : Int) : Int :=
  min 90 (max 20 (20 + (70 * elapsed) / (max (elapsed + sr) 20)))

/-- The `while True:` polling loop of `process_translation_task`, driven by
the poll script.  Returns (trace, ops, files created, finished, final
task).  An exhausted script means the Python loop is still running:
`finished = false`. -/
def pollLoop (t : Task) (polls : List (Nat × PollR)) (fetch : FetchOutcome) :
    List Task × List Op × List String × Bool × Task :=
  match polls with
  | [] => ([], [], [], false, t)
  | (e, r) :: rest =>
    if r.status = "done" then
      -- cosmetic ramp when the remote finished faster than 20 s
      let pre :=
        if (e : Int) < 20 then
          doneRamp t (((90 - t.progress) * (20 - (e : Int)) / 20).toNat)
        else ([], t)
      let ofn := outputFilename pre.2.filename pre.2.target_lang
      -- final simulated ramp 91..100 runs before the fetch is attempted
      let ramp2 := progSteps pre.2 (rangeInts 91 10)
      match fetch with
      | FetchOutcome.ok =>
        let t3 := { ramp2.2 with result_file := some ofn }
        let t4 := { t3 with status := "completed" }
        (pre.1 ++ ramp2.1 ++ [t3, t4], [Op.pollOp, Op.fetchOp], [ofn], true, t4)
      | FetchOutcome.errNoFile msg =>
        let f := failSteps ramp2.2 msg
        (pre.1 ++ ramp2.1 ++ f.1, [Op.pollOp, Op.fetchOp], [], true, f.2)
      | FetchOutcome.errPartial msg =>
        let f := failSteps ramp2.2 msg
        (pre.1 ++ ramp2.1 ++ f.1, [Op.pollOp, Op.fetchOp], [ofn], true, f.2)
    else if r.status = "error" then
      let m := match r.message with
        | some m => m
        | none => "Erro desconhecido na tradução"
      let f := failSteps t ("Erro na API DeepL: " ++ m)
      (f.1, [Op.pollOp], [], true, f.2)
    else if r.status = "translating" ∨ r.status = "queued" then
      let sr := match r.secondsRemaining with
        | some v => v
        | none => 120
      let upd :=
        if 0 < sr then
          let t1 := { t with progress := pollEstimate (e : Int) sr }
          ([t1], t1)
        else ([], t)
      if 3600 < (e : Int) then
        let f := failSteps upd.2 "Tempo máximo de tradução excedido"
        (upd.1 ++ f.1, [Op.pollOp], [], true, f.2)
      else
        let r2 := pollLoop upd.2 rest fetch
        (upd.1 ++ r2.1, Op.pollOp :: r2.2.1, r2.2.2.1, r2.2.2.2.1, r2.2.2.2.2)
    else
      let f := failSteps t ("Status desconhecido: " ++ r.status)
      (f.1, [Op.pollOp], [], true, f.2)

/-- The body of `process_translation_task` after the task lookup succeeded:
mark processing, pre-submit ramp 1..10, submit (source language fixed
`'PT'`, target mapped through `LANGUAGE_MAP` with default `'EN-US'`),
post-submit ramp 11..20, then the polling loop; any exception lands in the
`except` block; `finally: cleanup_file(...)` runs when the function exits. -/
def processBody (t0 : Task) (env : Env) : RunOut :=
  let t1 := { t0 with status := "processing" }
  let t2 := { t1 with progress := 0 }
  let ramp1 := progSteps t2 (rangeInts 1 10)
  let subOp := Op.submitOp "PT" (languageMapGet t0.target_lang "EN-US")
  match env.submitR with
  | SubmitOutcome.failed msg =>
    let f := failSteps ramp1.2 msg
    { trace := [t1, t2] ++ ramp1.1 ++ f.1, ops := [subOp], files := [],
      cleanups := 1, finished := true, final := f.2 }
  | SubmitOutcome.accepted =>
    let ramp2 := progSteps ramp1.2 (rangeInts 11 10)
    let lp := pollLoop ramp2.2 env.polls env.fetch
    { trace := [t1, t2] ++ ramp1.1 ++ ramp2.1 ++ lp.1,
      ops := subOp :: lp.2.1,
      files := lp.2.2.1,
      cleanups := if lp.2.2.2.1 then 1 else 0,
      finished := lp.2.2.2.1,
      final := lp.2.2.2.2 }

/-- `process_translation_task(task_id, uploaded_file_path)`: when the task
id is not registered the function only removes the temp file and returns;
otherwise it runs `processBody`. -/
def process_translation_task (task : Option Task) (env : Env) : RunOut :=
  match task with
  | none =>
    { trace := [], ops := [], files := [], cleanups := 1, finished := true,
      final := newTask "" "" "" }
  | some t0 => processBody t0 env

/-! ### Claim-level predicates -/

/-- `chainB R l` holds when `R` holds between every two adjacent elements of
`l` — used to state properties of the snapshot trace. -/
def chainB (R : Task → Task → Bool) : List Task → Bool
  | a :: b :: l => R a b && chainB R (b :: l)
  | _ => true

/-- One step of claim C1 as stated: progress may not decrease between two
adjacent reader-observable states unless the earlier state is already
terminal. -/
def c1MonotoneStep (a b : Task) : Bool :=
  decide (a.status = "completed") || decide (a.status = "error") ||
    decide (a.progress ≤ b.progress)

/-- One step of the terminal-freeze part of claim C1: after a `completed`
state nothing changes; after an `error` state the status stays `error` and
progress can only change to `0` (the Failed transition itself may report
progress 0). -/
def frozenStep (a b : Task) : Bool :=
  (!(decide (a.status = "completed")) || decide (b = a)) &&
  (!(decide (a.status = "error")) ||
    (decide (b.status = "error") &&
      (decide (b.progress = a.progress) || decide (b.progress = 0))))

/-- One step of the amended claim C1: progress does not decrease, except
that the polling-phase ETA estimate may assign any value in `[20, 90]`
while the job is still `processing`, and the Failed transition may reset
progress to `0`. -/
def decreaseOk (a b : Task) : Bool :=
  decide (a.progress ≤ b.progress) ||
  (decide (b.status = "error") && decide (b.progress = 0)) ||
  (decide (b.status = "processing") && decide (20 ≤ b.progress) &&
    decide (b.progress ≤ 90))

/-- Modelled from the spec's words (claim C2, polling phase):
`clamp(20, 90, 20 + 70 * elapsed/(elapsed+etaSeconds))`, floored to an
integer.  This is the specification's formula, to be compared with the
code's `pollEstimate`. -/
def specPollEstimate (elapsed eta : Int) : Int :=
  min 90 (max 20 (20 + (70 * elapsed) / (elapsed + eta)))

/-- The record invariant of claim C4: result location present iff the phase
is Completed, failure reason present iff the phase is Failed. -/
def recordInvariant (t : Task) : Prop :=
  (t.result_file.isSome = true ↔ t.status = "completed") ∧
  (t.error.isSome = true ↔ t.status = "error")

/-! ### Concrete environments used by counterexamples and witnesses -/

/-- Two `queued` polls: first at 18 s with a 1 s ETA, then at 20 s with a
1000 s ETA — the remote's ETA grew between polls. -/
def c1Env : Env :=
  ⟨SubmitOutcome.accepted,
   [(18, ⟨"queued", some 1, none⟩), (20, ⟨"queued", some 1000, none⟩)],
   FetchOutcome.ok⟩

/-- One `queued` poll at 5 s elapsed with a 4 s ETA hint. -/
def c2Env : Env :=
  ⟨SubmitOutcome.accepted, [(5, ⟨"queued", some 4, none⟩)], FetchOutcome.ok⟩

/-- Remote reports `done` at 25 s; the result fetch then fails before any
output file is created. -/
def c3Env : Env :=
  ⟨SubmitOutcome.accepted, [(25, ⟨"done", none, none⟩)],
   FetchOutcome.errNoFile "network unreachable"⟩

/-- Remote reports `done` at 25 s; the fetch succeeds. -/
def c4Env : Env :=
  ⟨SubmitOutcome.accepted, [(25, ⟨"done", none, none⟩)], FetchOutcome.ok⟩

/-- A `queued` poll observed at 3601 s elapsed — past the 3600 s maximum
wait. -/
def c5Env : Env :=
  ⟨SubmitOutcome.accepted, [(3601, ⟨"queued", some 5, none⟩)],
   FetchOutcome.ok⟩

/-- Remote reports `done` at 25 s; the streaming fetch then dies mid-copy,
leaving a partial output file on disk. -/
def c6Env : Env :=
  ⟨SubmitOutcome.accepted, [(25, ⟨"done", none, none⟩)],
   FetchOutcome.errPartial "connection reset"⟩

/-- A successful single-poll run, used to exhibit the two colliding jobs of
claim C9. -/
def c9Env : Env :=
  ⟨SubmitOutcome.accepted, [(25, ⟨"done", none, none⟩)], FetchOutcome.ok⟩

/-! ### Chain and segment lemmas -/

/-- Last element of a list, or the supplied default when it is empty. -/
def lastOr {α : Type} (d : α) : List α → α
  | [] => d
  | a :: l => lastOr a l

theorem chainB_cons_append (R : Task → Task → Bool) (t : Task) (xs ys : List Task)
    (h1 : chainB R (t :: xs) = true) (h2 : chainB R (lastOr t xs :: ys) = true) :
    chainB R (t :: (xs ++ ys)) = true := by
  induction xs generalizing t with
  | nil => simpa using h2
  | cons a l ih =>
    simp only [chainB, Bool.and_eq_true] at h1
    rw [List.cons_append]
    show (R t a && chainB R (a :: (l ++ ys))) = true
    rw [Bool.and_eq_true]
    exact ⟨h1.1, ih a h1.2 h2⟩

theorem progSteps_snd (t : Task) (vs : List Int) :
    (progSteps t vs).2 = { t with progress := lastOr t.progress vs } := by
  induction vs generalizing t with
  | nil => rfl
  | cons v vs ih => exact ih { t with progress := v }

theorem progSteps_lastOr (t : Task) (vs : List Int) :
    lastOr t (progSteps t vs).1 = (progSteps t vs).2 := by
  induction vs generalizing t with
  | nil => rfl
  | cons v vs ih => exact ih { t with progress := v }

/-- `t.progress :: vs` is (weakly) ascending. -/
def ascFrom (p : Int) : List Int → Bool
  | [] => true
  | v :: vs => decide (p ≤ v) && ascFrom v vs

theorem decreaseOk_of_le (a b : Task) (h : a.progress ≤ b.progress) :
    decreaseOk a b = true := by
  simp only [decreaseOk, Bool.or_eq_true, Bool.and_eq_true, decide_eq_true_eq]
  exact Or.inl (Or.inl h)

theorem decreaseOk_of_err0 (a b : Task) (h1 : b.status = "error")
    (h2 : b.progress = 0) : decreaseOk a b = true := by
  simp only [decreaseOk, Bool.or_eq_true, Bool.and_eq_true, decide_eq_true_eq]
  exact Or.inl (Or.inr ⟨h1, h2⟩)

theorem decreaseOk_of_band (a b : Task) (h1 : b.status = "processing")
    (h2 : 20 ≤ b.progress) (h3 : b.progress ≤ 90) : decreaseOk a b = true := by
  simp only [decreaseOk, Bool.or_eq_true, Bool.and_eq_true, decide_eq_true_eq]
  exact Or.inr ⟨⟨h1, h2⟩, h3⟩

theorem frozenStep_of_processing (a b : Task) (h : a.status = "processing") :
    frozenStep a b = true := by
  simp only [frozenStep, h]
  rfl

theorem frozenStep_err (a b : Task) (ha : a.status = "error")
    (hb : b.status = "error") (hp : b.progress = a.progress ∨ b.progress = 0) :
    frozenStep a b = true := by
  have hd : (decide (b.progress = a.progress) || decide (b.progress = 0)) = true := by
    rcases hp with hp | hp
    · simp [hp]
    · simp [hp]
  simp [frozenStep, ha, hb, hd]

theorem chainB_decreaseOk_progSteps (t : Task) (vs : List Int)
    (h : ascFrom t.progress vs = true) :
    chainB decreaseOk (t :: (progSteps t vs).1) = true := by
  induction vs generalizing t with
  | nil => rfl
  | cons v vs ih =>
    simp only [ascFrom, Bool.and_eq_true, decide_eq_true_eq] at h
    show (decreaseOk t { t with progress := v } &&
      chainB decreaseOk ({ t with progress := v } :: (progSteps { t with progress := v } vs).1)) = true
    rw [Bool.and_eq_true]
    exact ⟨decreaseOk_of_le _ _ h.1, ih { t with progress := v } h.2⟩

theorem chainB_frozenStep_progSteps (t : Task) (vs : List Int)
    (h : t.status = "processing") :
    chainB frozenStep (t :: (progSteps t vs).1) = true := by
  induction vs generalizing t with
  | nil => rfl
  | cons v vs ih =>
    show (frozenStep t { t with progress := v } &&
      chainB frozenStep ({ t with progress := v } :: (progSteps { t with progress := v } vs).1)) = true
    rw [Bool.and_eq_true]
    exact ⟨frozenStep_of_processing _ _ h, ih { t with progress := v } h⟩

theorem pollEstimate_lb (e sr : Int) : 20 ≤ pollEstimate e sr :=
  le_min (by norm_num) (le_max_left _ _)

theorem pollEstimate_ub (e sr : Int) : pollEstimate e sr ≤ 90 :=
  min_le_left _ _

theorem failSteps_final (t : Task) (msg : String) :
    (failSteps t msg).2 =
      { t with status := "error", error := some msg, progress := 0 } := rfl

theorem chainB_decreaseOk_failSteps (t : Task) (msg : String) :
    chainB decreaseOk (t :: (failSteps t msg).1) = true := by
  show (decreaseOk t { t with status := "error" } && _) = true
  rw [Bool.and_eq_true]
  refine ⟨decreaseOk_of_le _ _ le_rfl, ?_⟩
  show (decreaseOk _ _ && (decreaseOk _ _ && true)) = true
  rw [Bool.and_eq_true]
  refine ⟨decreaseOk_of_le _ _ le_rfl, ?_⟩
  rw [Bool.and_eq_true]
  exact ⟨decreaseOk_of_err0 _ _ rfl rfl, rfl⟩

theorem chainB_frozenStep_failSteps (t : Task) (msg : String)
    (h : t.status = "processing") :
    chainB frozenStep (t :: (failSteps t msg).1) = true := by
  show (frozenStep t { t with status := "error" } && _) = true
  rw [Bool.and_eq_true]
  refine ⟨frozenStep_of_processing _ _ h, ?_⟩
  show (frozenStep _ _ && (frozenStep _ _ && true)) = true
  rw [Bool.and_eq_true]
  refine ⟨frozenStep_err _ _ rfl rfl (Or.inl rfl), ?_⟩
  rw [Bool.and_eq_true]
  exact ⟨frozenStep_err _ _ rfl rfl (Or.inr rfl), rfl⟩

theorem doneRamp_facts (n : Nat) (t : Task) (h90 : t.progress ≤ 90) :
    ∃ p, (doneRamp t n).2 = { t with progress := p } ∧ t.progress ≤ p ∧ p ≤ 90 ∧
      lastOr t (doneRamp t n).1 = (doneRamp t n).2 ∧
      chainB decreaseOk (t :: (doneRamp t n).1) = true ∧
      (t.status = "processing" → chainB frozenStep (t :: (doneRamp t n).1) = true) := by
  induction n generalizing t with
  | zero => exact ⟨t.progress, rfl, le_rfl, h90, rfl, rfl, fun _ => rfl⟩
  | succ n ih =>
    have hstep : t.progress ≤ min 90 (t.progress + 1) :=
      le_min h90 (by omega)
    obtain ⟨p, hsnd, hle, hub, hlast, hdec, hfro⟩ :=
      ih { t with progress := min 90 (t.progress + 1) } (min_le_left _ _)
    refine ⟨p, hsnd, le_trans hstep hle, hub, hlast, ?_, ?_⟩
    · show (decreaseOk t { t with progress := min 90 (t.progress + 1) } && _) = true
      rw [Bool.and_eq_true]
      exact ⟨decreaseOk_of_le _ _ hstep, hdec⟩
    · intro hst
      show (frozenStep t { t with progress := min 90 (t.progress + 1) } && _) = true
      rw [Bool.and_eq_true]
      exact ⟨frozenStep_of_processing _ _ hst, hfro hst⟩

/-! ### Branch-reduction lemmas for `pollLoop` -/

theorem pollLoop_done (t : Task) (e : Nat) (r : PollR) (rest : List (Nat × PollR))
    (fetch : FetchOutcome) (hdone : r.status = "done") :
    pollLoop t ((e, r) :: rest) fetch =
      (let pre :=
        if (e : Int) < 20 then
          doneRamp t (((90 - t.progress) * (20 - (e : Int)) / 20).toNat)
        else ([], t)
       let ofn := outputFilename pre.2.filename pre.2.target_lang
       let ramp2 := progSteps pre.2 (rangeInts 91 10)
       match fetch with
       | FetchOutcome.ok =>
         let t3 := { ramp2.2 with result_file := some ofn }
         let t4 := { t3 with status := "completed" }
         (pre.1 ++ ramp2.1 ++ [t3, t4], [Op.pollOp, Op.fetchOp], [ofn], true, t4)
       | FetchOutcome.errNoFile msg =>
         let f := failSteps ramp2.2 msg
         (pre.1 ++ ramp2.1 ++ f.1, [Op.pollOp, Op.fetchOp], [], true, f.2)
       | FetchOutcome.errPartial msg =>
         let f := failSteps ramp2.2 msg
         (pre.1 ++ ramp2.1 ++ f.1, [Op.pollOp, Op.fetchOp], [ofn], true, f.2)) := by
  rw [pollLoop, if_pos hdone]

theorem pollLoop_errstatus (t : Task) (e : Nat) (r : PollR)
    (rest : List (Nat × PollR)) (fetch : FetchOutcome) (h : r.status = "error") :
    pollLoop t ((e, r) :: rest) fetch =
      (let m := match r.message with
        | some m => m
        | none => "Erro desconhecido na tradução"
       let f := failSteps t ("Erro na API DeepL: " ++ m)
       (f.1, [Op.pollOp], [], true, f.2)) := by
  rw [pollLoop, if_neg (show ¬ r.status = "done" from by simp [h]), if_pos h]

theorem pollLoop_active (t : Task) (e : Nat) (r : PollR)
    (rest : List (Nat × PollR)) (fetch : FetchOutcome)
    (h : r.status = "translating" ∨ r.status = "queued") :
    pollLoop t ((e, r) :: rest) fetch =
      (let sr := match r.secondsRemaining with
        | some v => v
        | none => 120
       let upd :=
        if 0 < sr then
          let t1 := { t with progress := pollEstimate (e : Int) sr }
          ([t1], t1)
        else ([], t)
       if 3600 < (e : Int) then
        let f := failSteps upd.2 "Tempo máximo de tradução excedido"
        (upd.1 ++ f.1, [Op.pollOp], [], true, f.2)
       else
        let r2 := pollLoop upd.2 rest fetch
        (upd.1 ++ r2.1, Op.pollOp :: r2.2.1, r2.2.2.1, r2.2.2.2.1, r2.2.2.2.2)) := by
  rw [pollLoop, if_neg (show ¬ r.status = "done" from by rcases h with h | h <;> simp [h]),
    if_neg (show ¬ r.status = "error" from by rcases h with h | h <;> simp [h]), if_pos h]

theorem pollLoop_unknown (t : Task) (e : Nat) (r : PollR)
    (rest : List (Nat × PollR)) (fetch : FetchOutcome)
    (h1 : ¬ r.status = "done") (h2 : ¬ r.status = "error")
    (h3 : ¬ (r.status = "translating" ∨ r.status = "queued")) :
    pollLoop t ((e, r) :: rest) fetch =
      (let f := failSteps t ("Status desconhecido: " ++ r.status)
       (f.1, [Op.pollOp], [], true, f.2)) := by
  rw [pollLoop, if_neg h1, if_neg h2, if_neg h3]

/-- Facts about the cosmetic pre-ramp of the done branch (either the
`doneRamp` when the remote finished in under 20 s, or nothing). -/
theorem donePre_facts (t : Task) (e : Nat) (hst : t.status = "processing")
    (h90 : t.progress ≤ 90) :
    ∃ p0,
      (if (e : Int) < 20 then
          doneRamp t (((90 - t.progress) * (20 - (e : Int)) / 20).toNat)
        else ([], t)).2 = { t with progress := p0 } ∧
      t.progress ≤ p0 ∧ p0 ≤ 90 ∧
      lastOr t (if (e : Int) < 20 then
          doneRamp t (((90 - t.progress) * (20 - (e : Int)) / 20).toNat)
        else ([], t)).1 =
        (if (e : Int) < 20 then
          doneRamp t (((90 - t.progress) * (20 - (e : Int)) / 20).toNat)
        else ([], t)).2 ∧
      chainB decreaseOk (t :: (if (e : Int) < 20 then
          doneRamp t (((90 - t.progress) * (20 - (e : Int)) / 20).toNat)
        else ([], t)).1) = true ∧
      chainB frozenStep (t :: (if (e : Int) < 20 then
          doneRamp t (((90 - t.progress) * (20 - (e : Int)) / 20).toNat)
        else ([], t)).1) = true := by
  by_cases hc : (e : Int) < 20
  · rw [if_pos hc]
    obtain ⟨p, h1, h2, h3, h4, h5, h6⟩ :=
      doneRamp_facts (((90 - t.progress) * (20 - (e : Int)) / 20).toNat) t h90
    exact ⟨p, h1, h2, h3, h4, h5, h6 hst⟩
  · rw [if_neg hc]
    exact ⟨t.progress, rfl, le_rfl, h90, rfl, rfl, rfl⟩

theorem ascFrom_rangeInts (n : Nat) (p lo : Int) (h : p ≤ lo) :
    ascFrom p (rangeInts lo n) = true := by
  induction n generalizing p lo with
  | zero => rfl
  | succ n ih =>
    show (decide (p ≤ lo) && ascFrom lo (rangeInts (lo + 1) n)) = true
    rw [Bool.and_eq_true, decide_eq_true_eq]
    exact ⟨h, ih lo (lo + 1) (by omega)⟩

/-- Invariant bundle for the polling loop, relative to the task state `t` at
loop entry: the snapshot trace never decreases progress illegally, terminal
states freeze, identity fields are preserved, and the final state and file
effects are classified by how the loop ended. -/
structure LoopGood (fetch : FetchOutcome) (t : Task)
    (res : List Task × List Op × List String × Bool × Task) : Prop where
  chainDec : chainB decreaseOk (t :: res.1) = true
  chainFro : chainB frozenStep (t :: res.1) = true
  fnEq : res.2.2.2.2.filename = t.filename
  tlEq : res.2.2.2.2.target_lang = t.target_lang
  finTrue : res.2.2.2.1 = true →
    (res.2.2.2.2.status = "completed" ∧
     res.2.2.2.2.result_file = some (outputFilename t.filename t.target_lang) ∧
     res.2.2.2.2.error = none ∧
     res.2.2.1 = [outputFilename t.filename t.target_lang] ∧
     Op.fetchOp ∈ res.2.1 ∧ fetch = FetchOutcome.ok) ∨
    (res.2.2.2.2.status = "error" ∧ res.2.2.2.2.result_file = none ∧
     (res.2.2.2.2.error).isSome = true ∧ res.2.2.2.2.progress = 0)
  finFalse : res.2.2.2.1 = false →
    res.2.2.2.2.status = "processing" ∧ res.2.2.2.2.result_file = none ∧
    res.2.2.2.2.error = none ∧ 20 ≤ res.2.2.2.2.progress ∧
    res.2.2.2.2.progress ≤ 90 ∧ res.2.2.1 = []
  filesOk : res.2.2.1 = [] ∨ res.2.2.1 = [outputFilename t.filename t.target_lang]

/-- Main invariant of the polling loop, by induction over the poll script. -/
theorem pollLoop_good (polls : List (Nat × PollR)) (t : Task) (fetch : FetchOutcome)
    (hst : t.status = "processing") (hrf : t.result_file = none)
    (herr : t.error = none) (h20 : 20 ≤ t.progress) (h90 : t.progress ≤ 90) :
    LoopGood fetch t (pollLoop t polls fetch) := by
  induction polls generalizing t with
  | nil =>
    exact ⟨rfl, rfl, rfl, rfl, fun h => Bool.noConfusion h,
      fun _ => ⟨hst, hrf, herr, h20, h90, rfl⟩, Or.inl rfl⟩
  | cons q rest ih =>
    obtain ⟨e, st, sR, mg⟩ := q
    by_cases hdone : st = "done"
    · rw [pollLoop_done t e ⟨st, sR, mg⟩ rest fetch hdone]
      obtain ⟨p0, hsnd, hle, hub, hlast, hdec, hfro⟩ := donePre_facts t e hst h90
      rcases fetch with _ | msg | msg <;> dsimp only <;> rw [hsnd]
      · refine ⟨?_, ?_, rfl, rfl,
          fun _ => Or.inl ⟨rfl, rfl, herr, rfl, by simp, rfl⟩,
          fun h => Bool.noConfusion h, Or.inr rfl⟩
        · rw [List.append_assoc]
          refine chainB_cons_append _ t _ _ hdec ?_
          rw [hlast, hsnd]
          refine chainB_cons_append _ _ _ _
            (chainB_decreaseOk_progSteps _ _
              (ascFrom_rangeInts 10 _ 91 (le_trans hub (by norm_num)))) ?_
          rw [progSteps_lastOr]
          show (decreaseOk _ _ && (decreaseOk _ _ && true)) = true
          rw [Bool.and_eq_true, Bool.and_eq_true]
          exact ⟨decreaseOk_of_le _ _ le_rfl, decreaseOk_of_le _ _ le_rfl, rfl⟩
        · rw [List.append_assoc]
          refine chainB_cons_append _ t _ _ hfro ?_
          rw [hlast, hsnd]
          refine chainB_cons_append _ _ _ _
            (chainB_frozenStep_progSteps _ _ hst) ?_
          rw [progSteps_lastOr]
          show (frozenStep _ _ && (frozenStep _ _ && true)) = true
          rw [Bool.and_eq_true, Bool.and_eq_true]
          exact ⟨frozenStep_of_processing _ _ hst, frozenStep_of_processing _ _ hst, rfl⟩
      · refine ⟨?_, ?_, rfl, rfl,
          fun _ => Or.inr ⟨rfl, hrf, rfl, rfl⟩,
          fun h => Bool.noConfusion h, Or.inl rfl⟩
        · rw [List.append_assoc]
          refine chainB_cons_append _ t _ _ hdec ?_
          rw [hlast, hsnd]
          refine chainB_cons_append _ _ _ _
            (chainB_decreaseOk_progSteps _ _
              (ascFrom_rangeInts 10 _ 91 (le_trans hub (by norm_num)))) ?_
          rw [progSteps_lastOr]
          exact chainB_decreaseOk_failSteps _ _
        · rw [List.append_assoc]
          refine chainB_cons_append _ t _ _ hfro ?_
          rw [hlast, hsnd]
          refine chainB_cons_append _ _ _ _
            (chainB_frozenStep_progSteps _ _ hst) ?_
          rw [progSteps_lastOr]
          exact chainB_frozenStep_failSteps _ _ hst
      · refine ⟨?_, ?_, rfl, rfl,
          fun _ => Or.inr ⟨rfl, hrf, rfl, rfl⟩,
          fun h => Bool.noConfusion h, Or.inr rfl⟩
        · rw [List.append_assoc]
          refine chainB_cons_append _ t _ _ hdec ?_
          rw [hlast, hsnd]
          refine chainB_cons_append _ _ _ _
            (chainB_decreaseOk_progSteps _ _
              (ascFrom_rangeInts 10 _ 91 (le_trans hub (by norm_num)))) ?_
          rw [progSteps_lastOr]
          exact chainB_decreaseOk_failSteps _ _
        · rw [List.append_assoc]
          refine chainB_cons_append _ t _ _ hfro ?_
          rw [hlast, hsnd]
          refine chainB_cons_append _ _ _ _
            (chainB_frozenStep_progSteps _ _ hst) ?_
          rw [progSteps_lastOr]
          exact chainB_frozenStep_failSteps _ _ hst
    · by_cases herrst : st = "error"
      · rw [pollLoop_errstatus t e ⟨st, sR, mg⟩ rest fetch herrst]
        dsimp only
        exact ⟨chainB_decreaseOk_failSteps _ _, chainB_frozenStep_failSteps _ _ hst,
          rfl, rfl, fun _ => Or.inr ⟨rfl, hrf, rfl, rfl⟩,
          fun h => Bool.noConfusion h, Or.inl rfl⟩
      · by_cases hact : st = "translating" ∨ st = "queued"
        · rw [pollLoop_active t e ⟨st, sR, mg⟩ rest fetch hact]
          dsimp only
          rcases sR with _ | v
          · rw [if_pos (show (0 : Int) < 120 from by norm_num)]
            by_cases hto : 3600 < (e : Int)
            · rw [if_pos hto]
              refine ⟨?_, ?_, rfl, rfl, fun _ => Or.inr ⟨rfl, hrf, rfl, rfl⟩,
                fun h => Bool.noConfusion h, Or.inl rfl⟩
              · show (decreaseOk t _ && _) = true
                rw [Bool.and_eq_true]
                exact ⟨decreaseOk_of_band _ _ hst (pollEstimate_lb _ _) (pollEstimate_ub _ _),
                  chainB_decreaseOk_failSteps _ _⟩
              · show (frozenStep t _ && _) = true
                rw [Bool.and_eq_true]
                exact ⟨frozenStep_of_processing _ _ hst, chainB_frozenStep_failSteps _ _ hst⟩
            · rw [if_neg hto]
              have IH := ih { t with progress := pollEstimate (e : Int) 120 }
                hst hrf herr (pollEstimate_lb _ _) (pollEstimate_ub _ _)
              refine ⟨?_, ?_, IH.fnEq, IH.tlEq, ?_, IH.finFalse, IH.filesOk⟩
              · show (decreaseOk t _ && _) = true
                rw [Bool.and_eq_true]
                exact ⟨decreaseOk_of_band _ _ hst (pollEstimate_lb _ _) (pollEstimate_ub _ _),
                  IH.chainDec⟩
              · show (frozenStep t _ && _) = true
                rw [Bool.and_eq_true]
                exact ⟨frozenStep_of_processing _ _ hst, IH.chainFro⟩
              · intro h
                rcases IH.finTrue h with ⟨hc1, hc2, hc3, hc4, hc5, hc6⟩ | hb
                · exact Or.inl ⟨hc1, hc2, hc3, hc4, List.mem_cons_of_mem _ hc5, hc6⟩
                · exact Or.inr hb
          · by_cases h0 : 0 < v
            · rw [if_pos h0]
              by_cases hto : 3600 < (e : Int)
              · rw [if_pos hto]
                refine ⟨?_, ?_, rfl, rfl, fun _ => Or.inr ⟨rfl, hrf, rfl, rfl⟩,
                  fun h => Bool.noConfusion h, Or.inl rfl⟩
                · show (decreaseOk t _ && _) = true
                  rw [Bool.and_eq_true]
                  exact ⟨decreaseOk_of_band _ _ hst (pollEstimate_lb _ _) (pollEstimate_ub _ _),
                    chainB_decreaseOk_failSteps _ _⟩
                · show (frozenStep t _ && _) = true
                  rw [Bool.and_eq_true]
                  exact ⟨frozenStep_of_processing _ _ hst, chainB_frozenStep_failSteps _ _ hst⟩
              · rw [if_neg hto]
                have IH := ih { t with progress := pollEstimate (e : Int) v }
                  hst hrf herr (pollEstimate_lb _ _) (pollEstimate_ub _ _)
                refine ⟨?_, ?_, IH.fnEq, IH.tlEq, ?_, IH.finFalse, IH.filesOk⟩
                · show (decreaseOk t _ && _) = true
                  rw [Bool.and_eq_true]
                  exact ⟨decreaseOk_of_band _ _ hst (pollEstimate_lb _ _) (pollEstimate_ub _ _),
                    IH.chainDec⟩
                · show (frozenStep t _ && _) = true
                  rw [Bool.and_eq_true]
                  exact ⟨frozenStep_of_processing _ _ hst, IH.chainFro⟩
                · intro h
                  rcases IH.finTrue h with ⟨hc1, hc2, hc3, hc4, hc5, hc6⟩ | hb
                  · exact Or.inl ⟨hc1, hc2, hc3, hc4, List.mem_cons_of_mem _ hc5, hc6⟩
                  · exact Or.inr hb
            · rw [if_neg h0]
              by_cases hto : 3600 < (e : Int)
              · rw [if_pos hto]
                exact ⟨chainB_decreaseOk_failSteps _ _,
                  chainB_frozenStep_failSteps _ _ hst, rfl, rfl,
                  fun _ => Or.inr ⟨rfl, hrf, rfl, rfl⟩,
                  fun h => Bool.noConfusion h, Or.inl rfl⟩
              · rw [if_neg hto]
                have IH := ih t hst hrf herr h20 h90
                refine ⟨IH.chainDec, IH.chainFro, IH.fnEq, IH.tlEq, ?_,
                  IH.finFalse, IH.filesOk⟩
                intro h
                rcases IH.finTrue h with ⟨hc1, hc2, hc3, hc4, hc5, hc6⟩ | hb
                · exact Or.inl ⟨hc1, hc2, hc3, hc4, List.mem_cons_of_mem _ hc5, hc6⟩
                · exact Or.inr hb
        · rw [pollLoop_unknown t e ⟨st, sR, mg⟩ rest fetch hdone herrst hact]
          dsimp only
          exact ⟨chainB_decreaseOk_failSteps _ _, chainB_frozenStep_failSteps _ _ hst,
            rfl, rfl, fun _ => Or.inr ⟨rfl, hrf, rfl, rfl⟩,
            fun h => Bool.noConfusion h, Or.inl rfl⟩

/-- Invariant bundle for a full worker run on a freshly created task. -/
structure RunGood (env : Env) (fn tl : String) (r : RunOut) : Prop where
  chainDec : chainB decreaseOk r.trace = true
  chainFro : chainB frozenStep r.trace = true
  fnEq : r.final.filename = fn
  tlEq : r.final.target_lang = tl
  finTrue : r.finished = true →
    (r.final.status = "completed" ∧
     r.final.result_file = some (outputFilename fn tl) ∧
     r.final.error = none ∧
     r.files = [outputFilename fn tl] ∧
     Op.fetchOp ∈ r.ops ∧ env.fetch = FetchOutcome.ok) ∨
    (r.final.status = "error" ∧ r.final.result_file = none ∧
     (r.final.error).isSome = true ∧ r.final.progress = 0)
  finFalse : r.finished = false →
    r.final.status = "processing" ∧ r.final.result_file = none ∧
    r.final.error = none ∧ r.files = []
  filesOk : r.files = [] ∨ r.files = [outputFilename fn tl]

/-- Every run of the worker body on a freshly created task satisfies the
run invariants. -/
theorem processBody_good (id fn tl : String) (env : Env) :
    RunGood env fn tl (processBody (newTask id fn tl) env) := by
  obtain ⟨sub, polls, fetch⟩ := env
  rcases sub with _ | msg
  · -- submit accepted: pre-submit ramp, post-submit ramp, polling loop
    have LG := pollLoop_good polls
      ((progSteps { newTask id fn tl with status := "processing" }
          (0 :: rangeInts 1 10 ++ rangeInts 11 10)).2) fetch rfl rfl rfl
      le_rfl (by norm_num : (20 : Int) ≤ 90)
    refine ⟨?_, ?_, LG.fnEq, LG.tlEq, ?_, ?_, LG.filesOk⟩
    · show chainB decreaseOk
        ({ newTask id fn tl with status := "processing" } ::
          ((progSteps { newTask id fn tl with status := "processing" }
              (0 :: rangeInts 1 10 ++ rangeInts 11 10)).1 ++
            (pollLoop (progSteps { newTask id fn tl with status := "processing" }
                (0 :: rangeInts 1 10 ++ rangeInts 11 10)).2 polls fetch).1)) = true
      refine chainB_cons_append _ _ _ _
        (chainB_decreaseOk_progSteps _ _
          (by decide : ascFrom 0 (0 :: rangeInts 1 10 ++ rangeInts 11 10) = true)) ?_
      rw [progSteps_lastOr]
      exact LG.chainDec
    · show chainB frozenStep
        ({ newTask id fn tl with status := "processing" } ::
          ((progSteps { newTask id fn tl with status := "processing" }
              (0 :: rangeInts 1 10 ++ rangeInts 11 10)).1 ++
            (pollLoop (progSteps { newTask id fn tl with status := "processing" }
                (0 :: rangeInts 1 10 ++ rangeInts 11 10)).2 polls fetch).1)) = true
      refine chainB_cons_append _ _ _ _
        (chainB_frozenStep_progSteps _ _ rfl) ?_
      rw [progSteps_lastOr]
      exact LG.chainFro
    · intro h
      rcases LG.finTrue h with ⟨c1, c2, c3, c4, c5, c6⟩ | cb
      · exact Or.inl ⟨c1, c2, c3, c4, List.mem_cons_of_mem _ c5, c6⟩
      · exact Or.inr cb
    · intro h
      obtain ⟨d1, d2, d3, _, _, d6⟩ := LG.finFalse h
      exact ⟨d1, d2, d3, d6⟩
  · -- submit failed: the exception path runs, polling is never entered
    refine ⟨?_, ?_, rfl, rfl, fun _ => Or.inr ⟨rfl, rfl, rfl, rfl⟩,
      fun h => Bool.noConfusion h, Or.inl rfl⟩
    · show chainB decreaseOk
        ({ newTask id fn tl with status := "processing" } ::
          ((progSteps { newTask id fn tl with status := "processing" }
              (0 :: rangeInts 1 10)).1 ++
            (failSteps (progSteps { newTask id fn tl with status := "processing" }
                (0 :: rangeInts 1 10)).2 msg).1)) = true
      refine chainB_cons_append _ _ _ _
        (chainB_decreaseOk_progSteps _ _
          (by decide : ascFrom 0 (0 :: rangeInts 1 10) = true)) ?_
      rw [progSteps_lastOr]
      exact chainB_decreaseOk_failSteps _ _
    · show chainB frozenStep
        ({ newTask id fn tl with status := "processing" } ::
          ((progSteps { newTask id fn tl with status := "processing" }
              (0 :: rangeInts 1 10)).1 ++
            (failSteps (progSteps { newTask id fn tl with status := "processing" }
                (0 :: rangeInts 1 10)).2 msg).1)) = true
      refine chainB_cons_append _ _ _ _
        (chainB_frozenStep_progSteps _ _ rfl) ?_
      rw [progSteps_lastOr]
      exact chainB_frozenStep_failSteps _ _ rfl

/-- `processBody_good` lifted to `process_translation_task`. -/
theorem process_good (id fn tl : String) (env : Env) :
    RunGood env fn tl (process_translation_task (some (newTask id fn tl)) env) :=
  processBody_good id fn tl env

/-- If every scripted poll reports `translating`/`queued` and some poll is
observed past the 3600 s budget, the loop ends in the timeout failure, whose
message is the Portuguese `"Tempo máximo de tradução excedido"`. -/
theorem pollLoop_timeout (polls : List (Nat × PollR)) (t : Task)
    (fetch : FetchOutcome)
    (hq : ∀ p ∈ polls, p.2.status = "translating" ∨ p.2.status = "queued")
    (ht : ∃ p ∈ polls, 3600 < ((p.1 : Nat) : Int)) :
    (pollLoop t polls fetch).2.2.2.1 = true ∧
    (pollLoop t polls fetch).2.2.2.2.status = "error" ∧
    (pollLoop t polls fetch).2.2.2.2.error =
      some "Tempo máximo de tradução excedido" := by
  induction polls generalizing t with
  | nil =>
    obtain ⟨p, hp, _⟩ := ht
    cases hp
  | cons q rest ih =>
    obtain ⟨e, st, sR, mg⟩ := q
    have hact : st = "translating" ∨ st = "queued" :=
      hq _ (List.mem_cons_self _ _)
    have hrest : ¬ 3600 < ((e : Nat) : Int) → ∃ p ∈ rest, 3600 < ((p.1 : Nat) : Int) := by
      intro hto
      obtain ⟨p, hp, hpe⟩ := ht
      rcases List.mem_cons.mp hp with rfl | hmem
      · exact absurd hpe hto
      · exact ⟨p, hmem, hpe⟩
    have hq2 : ∀ p ∈ rest, p.2.status = "translating" ∨ p.2.status = "queued" :=
      fun p hp => hq p (List.mem_cons_of_mem _ hp)
    rw [pollLoop_active t e ⟨st, sR, mg⟩ rest fetch hact]
    dsimp only
    rcases sR with _ | v
    · rw [if_pos (show (0 : Int) < 120 from by norm_num)]
      by_cases hto : 3600 < ((e : Nat) : Int)
      · rw [if_pos hto]
        exact ⟨rfl, rfl, rfl⟩
      · rw [if_neg hto]
        exact ih _ hq2 (hrest hto)
    · by_cases h0 : 0 < v
      · rw [if_pos h0]
        by_cases hto : 3600 < ((e : Nat) : Int)
        · rw [if_pos hto]
          exact ⟨rfl, rfl, rfl⟩
        · rw [if_neg hto]
          exact ih _ hq2 (hrest hto)
      · rw [if_neg h0]
        by_cases hto : 3600 < ((e : Nat) : Int)
        · rw [if_pos hto]
          exact ⟨rfl, rfl, rfl⟩
        · rw [if_neg hto]
          exact ih _ hq2 (hrest hto)

/-- Claim C2 (amended): one step of the polling loop on a
`translating`/`queued` response inside the time budget.  The ETA defaults to
120 s when the hint is absent; with a positive (defaulted) ETA the progress
is assigned the code's estimate `int(min(90, max(20, 20 + 70*elapsed /
max(elapsed + eta, 20))))` — the denominator is floored at the 20 s minimum
processing time, not the plain `elapsed + eta` of the specification —
otherwise no assignment happens and progress holds at its last value. -/
theorem c2_poll_estimate_amended (t : Task) (e : Nat) (sR : Option Int)
    (mg : Option String) (st : String) (rest : List (Nat × PollR))
    (fetch : FetchOutcome) (h : st = "translating" ∨ st = "queued")
    (hto : ¬ 3600 < ((e : Nat) : Int)) :
    (0 < sR.getD 120 →
      (pollLoop t ((e, ⟨st, sR, mg⟩) :: rest) fetch).1 =
        { t with progress := pollEstimate (e : Int) (sR.getD 120) } ::
          (pollLoop { t with progress := pollEstimate (e : Int) (sR.getD 120) }
            rest fetch).1) ∧
    (sR.getD 120 ≤ 0 →
      (pollLoop t ((e, ⟨st, sR, mg⟩) :: rest) fetch).1 =
        (pollLoop t rest fetch).1) := by
  rw [pollLoop_active t e ⟨st, sR, mg⟩ rest fetch h]
  dsimp only
  rcases sR with _ | v
  · constructor
    · intro _
      rw [if_pos (show (0 : Int) < 120 from by norm_num), if_neg hto]
      rfl
    · intro hle
      exact absurd hle (by norm_num)
  · constructor
    · intro h0
      rw [if_pos (show (0 : Int) < v from h0), if_neg hto]
      rfl
    · intro hle
      rw [if_neg (not_lt.mpr (show v ≤ 0 from hle)), if_neg hto]
      rfl

/-! ### `".."` survives the download route's sanitisation -/

theorem hasDotDot_shape (m : List Char) (h : hasDotDot m = true) :
    ∃ x y r, m = x :: y :: r := by
  match m with
  | [] => cases h
  | [x] => cases h
  | x :: y :: r => exact ⟨x, y, r, rfl⟩

theorem hasDotDot_map_sanitizeDl :
    ∀ l : List Char, hasDotDot l = true →
      hasDotDot (l.map sanitizeDlChar) = true
  | [], h => by cases h
  | [_], h => by cases h
  | a :: b :: rest, h => by
    simp only [hasDotDot, Bool.or_eq_true, Bool.and_eq_true,
      decide_eq_true_eq] at h
    simp only [List.map, hasDotDot, Bool.or_eq_true, Bool.and_eq_true,
      decide_eq_true_eq]
    rcases h with ⟨h1, h2⟩ | h2
    · subst h1; subst h2
      exact Or.inl ⟨by decide, by decide⟩
    · exact Or.inr (hasDotDot_map_sanitizeDl (b :: rest) h2)

theorem hasDotDot_dropWhile :
    ∀ l : List Char, hasDotDot l = true →
      hasDotDot (l.dropWhile (fun c => c = '_')) = true
  | [], h => by cases h
  | [_], h => by cases h
  | a :: b :: rest, h => by
    simp only [hasDotDot, Bool.or_eq_true, Bool.and_eq_true,
      decide_eq_true_eq] at h
    by_cases ha : a = '_'
    · have h2 : hasDotDot (b :: rest) = true := by
        rcases h with ⟨h1, _⟩ | h2
        · exact absurd (h1 ▸ ha) (by decide)
        · exact h2
      rw [List.dropWhile_cons_of_pos (by simpa using ha)]
      exact hasDotDot_dropWhile (b :: rest) h2
    · rw [List.dropWhile_cons_of_neg (by simpa using ha)]
      simp only [hasDotDot, Bool.or_eq_true, Bool.and_eq_true,
        decide_eq_true_eq]
      exact h

theorem dTU_cons_ne (c : Char) (l : List Char) (hc : ¬ c = '_') :
    ∃ r, dropTrailingUnders (c :: l) = c :: r := by
  cases hdl : dropTrailingUnders l with
  | nil => exact ⟨[], by rw [dropTrailingUnders, hdl]; simp [hc]⟩
  | cons x r => exact ⟨x :: r, by rw [dropTrailingUnders, hdl]⟩

theorem dTU_cons_eq (a : Char) (tail : List Char) (x : Char) (r : List Char)
    (h : dropTrailingUnders tail = x :: r) :
    dropTrailingUnders (a :: tail) = a :: x :: r := by
  rw [dropTrailingUnders, h]

theorem hasDotDot_dropTrailingUnders :
    ∀ l : List Char, hasDotDot l = true →
      hasDotDot (dropTrailingUnders l) = true
  | [], h => by cases h
  | [_], h => by cases h
  | a :: b :: rest, h => by
    simp only [hasDotDot, Bool.or_eq_true, Bool.and_eq_true,
      decide_eq_true_eq] at h
    rcases h with ⟨h1, h2⟩ | h2
    · subst h1; subst h2
      obtain ⟨r, hr⟩ := dTU_cons_ne '.' rest (by decide)
      rw [dTU_cons_eq '.' ('.' :: rest) '.' r hr]
      simp [hasDotDot]
    · have ih := hasDotDot_dropTrailingUnders (b :: rest) h2
      obtain ⟨x, y, r, hm⟩ := hasDotDot_shape _ ih
      rw [dTU_cons_eq a (b :: rest) x (y :: r) hm]
      show ((decide (a = '.') && decide (x = '.')) ||
        hasDotDot (x :: y :: r)) = true
      rw [Bool.or_eq_true]
      exact Or.inr (hm ▸ ih)

theorem hasDotDot_stripUnders (l : List Char) (h : hasDotDot l = true) :
    hasDotDot (stripUnders l) = true :=
  hasDotDot_dropTrailingUnders _ (hasDotDot_dropWhile l h)

/-! ### Concrete environments for witnesses -/

/-- Witness environment for C3/C9: one `done` poll at 25 s, fetch succeeds. -/
def c3wEnv : Env :=
  ⟨SubmitOutcome.accepted, [(25, ⟨"done", none, none⟩)], FetchOutcome.ok⟩

/-- Witness environment for C9. -/
def c9wEnv : Env :=
  ⟨SubmitOutcome.accepted, [(25, ⟨"done", none, none⟩)], FetchOutcome.ok⟩

/-- Witness poll script for C5: a single `queued` poll past the budget. -/
def c5wPolls : List (Nat × PollR) := [(3601, ⟨"queued", some 5, none⟩)]

/-- Witness environment for C10. -/
def c10wEnv : Env := ⟨SubmitOutcome.accepted, [], FetchOutcome.ok⟩

/-! ### Claims -/

/-- Claim C1, counterexample: progress is not monotonically non-decreasing.
With two `queued` polls — 18 s elapsed / 1 s ETA, then 20 s elapsed /
1000 s ETA — the estimate assigns progress 83 and then 21 while the job is
still `processing`, so the claimed property fails on this run. -/
theorem c1_progress_monotonicity_counterexample :
    ¬ (chainB c1MonotoneStep (process_translation_task
          (some (newTask "j1" "doc.txt" "en")) c1Env).trace = true ∧
       chainB frozenStep (process_translation_task
          (some (newTask "j1" "doc.txt" "en")) c1Env).trace = true) := by
  decide

/-- Claim C1 (amended): over every run, progress never decreases between
adjacent reader-observable states except that the polling-phase ETA
estimate may assign a lower value (always within `[20, 90]`, with the job
still `processing`) when the remote's reported ETA grows, and the Failed
transition may reset progress to 0; once `completed` nothing changes, and
once `error` the status stays `error` and progress changes only to 0. -/
theorem c1_progress_monotonicity_amended (id fn tl : String) (env : Env) :
    chainB decreaseOk
        (process_translation_task (some (newTask id fn tl)) env).trace = true ∧
    chainB frozenStep
        (process_translation_task (some (newTask id fn tl)) env).trace = true :=
  ⟨(process_good id fn tl env).chainDec, (process_good id fn tl env).chainFro⟩

/-- Claim C2, counterexample: at a `queued` poll with 5 s elapsed and a 4 s
ETA hint, the code assigns progress 37 (`pollEstimate`, whose denominator is
floored at the 20 s minimum processing time), while the specified
`clamp(20, 90, 20 + 70·5/(5+4))` is 58. -/
theorem c2_poll_estimate_counterexample :
    ((process_translation_task (some (newTask "j2" "doc.txt" "en"))
          c2Env).trace.get? 22).map Task.progress = some 37 ∧
    specPollEstimate 5 4 = 58 ∧ ¬ (37 : Int) = 58 := by
  decide

/-- Claim C2, witness: the amended step theorem applied to a concrete
`queued` poll (elapsed 5 s, ETA 4 s) yields exactly one progress
assignment, to `pollEstimate 5 4`. -/
theorem c2_poll_estimate_witness :
    (pollLoop (newTask "j2w" "doc.txt" "en")
        [(5, ⟨"queued", some 4, none⟩)] FetchOutcome.ok).1 =
      [{ newTask "j2w" "doc.txt" "en" with progress := pollEstimate 5 4 }] :=
  ((c2_poll_estimate_amended (newTask "j2w" "doc.txt" "en") 5 (some 4) none
      "queued" [] FetchOutcome.ok (Or.inr rfl) (by decide)).1 (by decide)).trans
    rfl

/-- Claim C3, counterexample: the 90→100 ramp runs before the fetch, so on a
run where the fetch then fails, a reader observes progress 100 with status
`processing`, the job ends `error`, and no output file was ever persisted —
progress reached 100 before the result was retrievable. -/
theorem c3_early_100_counterexample :
    ((process_translation_task (some (newTask "j3" "doc.txt" "en"))
          c3Env).trace.get? 31).map (fun t => (t.status, t.progress)) =
      some ("processing", 100) ∧
    (process_translation_task (some (newTask "j3" "doc.txt" "en"))
        c3Env).final.status = "error" ∧
    (process_translation_task (some (newTask "j3" "doc.txt" "en"))
        c3Env).files = [] := by
  decide

/-- Claim C3 (amended): although progress reaches 100 before the fetch, the
job never *claims completion* early: whenever a run ends with status
`completed`, the fetch operation was actually issued, the persisted output
file is recorded in `result_file`, the file exists in the upload folder,
and the fetch succeeded. -/
theorem c3_completion_only_after_fetch (id fn tl : String) (env : Env)
    (h : (process_translation_task (some (newTask id fn tl)) env).final.status =
      "completed") :
    Op.fetchOp ∈ (process_translation_task (some (newTask id fn tl)) env).ops ∧
    (process_translation_task (some (newTask id fn tl)) env).final.result_file =
      some (outputFilename fn tl) ∧
    (process_translation_task (some (newTask id fn tl)) env).files =
      [outputFilename fn tl] ∧
    env.fetch = FetchOutcome.ok := by
  have G := process_good id fn tl env
  cases hf : (process_translation_task (some (newTask id fn tl)) env).finished with
  | false =>
    have hp := (G.finFalse hf).1
    rw [h] at hp
    exact absurd hp (by decide)
  | true =>
    rcases G.finTrue hf with ⟨_, c2, _, c4, c5, c6⟩ | ⟨b1, _, _, _⟩
    · exact ⟨c5, c2, c4, c6⟩
    · rw [h] at b1
      exact absurd b1 (by decide)

/-- Claim C3, witness: on a successful run the amended theorem applies. -/
theorem c3_completion_witness :
    Op.fetchOp ∈ (process_translation_task (some (newTask "j3w" "doc.txt" "en"))
        c3wEnv).ops ∧
    (process_translation_task (some (newTask "j3w" "doc.txt" "en"))
        c3wEnv).final.result_file = some (outputFilename "doc.txt" "en") ∧
    (process_translation_task (some (newTask "j3w" "doc.txt" "en"))
        c3wEnv).files = [outputFilename "doc.txt" "en"] ∧
    c3wEnv.fetch = FetchOutcome.ok :=
  c3_completion_only_after_fetch "j3w" "doc.txt" "en" c3wEnv (by decide)

/-- Claim C4, counterexample: mutations are published field by field, not as
whole-record replacements: on a successful run a reader can observe the
state in which `result_file` is already set while the status is still
`processing`, violating the claimed `result_location ⇔ Completed` at an
observable point. -/
theorem c4_atomicity_counterexample :
    ((process_translation_task (some (newTask "j4" "doc.txt" "en"))
          c4Env).trace.get? 32).map (fun t => (t.status, t.result_file)) =
      some ("processing", some "doc_translated_en.txt") := by
  decide

/-- Claim C4 (amended): the record invariants hold in the state each run
ends in (and in the initial state), though not at every intermediate
reader-observable point: in the final state, `result_file` is present iff
the status is `completed` and `error` is present iff the status is
`error`. -/
theorem c4_terminal_record_invariant (id fn tl : String) (env : Env) :
    recordInvariant
      (process_translation_task (some (newTask id fn tl)) env).final := by
  have G := process_good id fn tl env
  cases hf : (process_translation_task (some (newTask id fn tl)) env).finished with
  | false =>
    obtain ⟨d1, d2, d3, _⟩ := G.finFalse hf
    constructor
    · rw [d1, d2]
      exact ⟨fun hx => Bool.noConfusion hx, fun hx => absurd hx (by decide)⟩
    · rw [d1, d3]
      exact ⟨fun hx => Bool.noConfusion hx, fun hx => absurd hx (by decide)⟩
  | true =>
    rcases G.finTrue hf with ⟨c1, c2, c3, _, _, _⟩ | ⟨b1, b2, b3, _⟩
    · constructor
      · rw [c1, c2]
        exact ⟨fun _ => rfl, fun _ => rfl⟩
      · rw [c1, c3]
        exact ⟨fun hx => Bool.noConfusion hx, fun hx => absurd hx (by decide)⟩
    · constructor
      · rw [b1, b2]
        exact ⟨fun hx => Bool.noConfusion hx, fun hx => absurd hx (by decide)⟩
      · rw [b1]
        exact ⟨fun _ => rfl, fun _ => b3⟩

/-- Claim C5, counterexample: the timeout failure reason is the Portuguese
`"Tempo máximo de tradução excedido"`, which does not contain the substring
`"timeout"`. -/
theorem c5_timeout_reason_counterexample :
    (process_translation_task (some (newTask "j5" "doc.txt" "en"))
        c5Env).final.status = "error" ∧
    (process_translation_task (some (newTask "j5" "doc.txt" "en"))
        c5Env).final.error = some "Tempo máximo de tradução excedido" ∧
    occursIn "timeout".data "Tempo máximo de tradução excedido".data = false := by
  decide

/-- Claim C5 (amended): if the remote only ever reports
`translating`/`queued` and some poll is observed past the 3600 s (1 hour)
maximum wait, the job reaches the terminal `error` state with failure
reason `"Tempo máximo de tradução excedido"` — which does not contain the
substring `"timeout"`. -/
theorem c5_timeout_failure (id fn tl : String) (polls : List (Nat × PollR))
    (fetch : FetchOutcome)
    (hq : ∀ p ∈ polls, p.2.status = "translating" ∨ p.2.status = "queued")
    (ht : ∃ p ∈ polls, 3600 < ((p.1 : Nat) : Int)) :
    (process_translation_task (some (newTask id fn tl))
        ⟨SubmitOutcome.accepted, polls, fetch⟩).finished = true ∧
    (process_translation_task (some (newTask id fn tl))
        ⟨SubmitOutcome.accepted, polls, fetch⟩).final.status = "error" ∧
    (process_translation_task (some (newTask id fn tl))
        ⟨SubmitOutcome.accepted, polls, fetch⟩).final.error =
      some "Tempo máximo de tradução excedido" ∧
    occursIn "timeout".data "Tempo máximo de tradução excedido".data = false := by
  have T := pollLoop_timeout polls
    ((progSteps { newTask id fn tl with status := "processing" }
        (0 :: rangeInts 1 10 ++ rangeInts 11 10)).2) fetch hq ht
  exact ⟨T.1, T.2.1, T.2.2, by decide⟩

/-- Claim C5, witness: the amended theorem applied to a concrete script with
a single `queued` poll at 3601 s. -/
theorem c5_timeout_witness :
    (process_translation_task (some (newTask "j5w" "doc.txt" "en"))
        ⟨SubmitOutcome.accepted, c5wPolls, FetchOutcome.ok⟩).finished = true ∧
    (process_translation_task (some (newTask "j5w" "doc.txt" "en"))
        ⟨SubmitOutcome.accepted, c5wPolls, FetchOutcome.ok⟩).final.status =
      "error" ∧
    (process_translation_task (some (newTask "j5w" "doc.txt" "en"))
        ⟨SubmitOutcome.accepted, c5wPolls, FetchOutcome.ok⟩).final.error =
      some "Tempo máximo de tradução excedido" ∧
    occursIn "timeout".data "Tempo máximo de tradução excedido".data = false :=
  c5_timeout_failure "j5w" "doc.txt" "en" c5wPolls FetchOutcome.ok
    (by decide) (by decide)

/-- Claim C6, counterexample: when the streaming fetch dies mid-copy after a
`done` poll, the job does reach `error`, but the partially written output
file remains in the upload folder and the download endpoint serves it (200
with the file) to anyone requesting its deterministic name. -/
theorem c6_partial_file_counterexample :
    (process_translation_task (some (newTask "j6" "doc.txt" "en"))
        c6Env).final.status = "error" ∧
    (process_translation_task (some (newTask "j6" "doc.txt" "en"))
        c6Env).files = ["doc_translated_en.txt"] ∧
    download_file_route
        (process_translation_task (some (newTask "j6" "doc.txt" "en")) c6Env).files
        "doc_translated_en.txt" =
      (DlResult.okFile "doc_translated_en.txt", true) := by
  decide

/-- Claim C6 (amended): if the result fetch fails — whether before or after
the output file was created — the job never reaches `completed`. (The
partial file, when one was created, remains downloadable by name, as the
counterexample shows; only the advertised `completed`/`download_url` status
is withheld.) -/
theorem c6_fetch_failure_not_completed (id fn tl msg : String)
    (sub : SubmitOutcome) (polls : List (Nat × PollR)) :
    (process_translation_task (some (newTask id fn tl))
        ⟨sub, polls, FetchOutcome.errNoFile msg⟩).final.status ≠ "completed" ∧
    (process_translation_task (some (newTask id fn tl))
        ⟨sub, polls, FetchOutcome.errPartial msg⟩).final.status ≠ "completed" := by
  constructor
  · intro hc
    have G := process_good id fn tl ⟨sub, polls, FetchOutcome.errNoFile msg⟩
    cases hf : (process_translation_task (some (newTask id fn tl))
        ⟨sub, polls, FetchOutcome.errNoFile msg⟩).finished with
    | false =>
      have hp := (G.finFalse hf).1
      rw [hc] at hp
      exact absurd hp (by decide)
    | true =>
      rcases G.finTrue hf with ⟨_, _, _, _, _, c6⟩ | ⟨b1, _, _, _⟩
      · exact FetchOutcome.noConfusion c6
      · rw [hc] at b1
        exact absurd b1 (by decide)
  · intro hc
    have G := process_good id fn tl ⟨sub, polls, FetchOutcome.errPartial msg⟩
    cases hf : (process_translation_task (some (newTask id fn tl))
        ⟨sub, polls, FetchOutcome.errPartial msg⟩).finished with
    | false =>
      have hp := (G.finFalse hf).1
      rw [hc] at hp
      exact absurd hp (by decide)
    | true =>
      rcases G.finTrue hf with ⟨_, _, _, _, _, c6⟩ | ⟨b1, _, _, _⟩
      · exact FetchOutcome.noConfusion c6
      · rw [hc] at b1
        exact absurd b1 (by decide)

/-- Claim C7: if the provider submit fails, the job ends in the terminal
`error` state with the exception message, with only the submit operation
ever issued (no status poll) and exactly one cleanup of the temporary
source file; and on every exit path of the worker — including the
task-not-found early return — the cleanup runs exactly once (runs whose
poll script is exhausted are still inside the loop and have not yet
reached the `finally`). -/
theorem c7_submit_failure_and_cleanup :
    (∀ (id fn tl msg : String) (polls : List (Nat × PollR))
        (fetch : FetchOutcome),
      (process_translation_task (some (newTask id fn tl))
          ⟨SubmitOutcome.failed msg, polls, fetch⟩).final.status = "error" ∧
      (process_translation_task (some (newTask id fn tl))
          ⟨SubmitOutcome.failed msg, polls, fetch⟩).final.error = some msg ∧
      (process_translation_task (some (newTask id fn tl))
          ⟨SubmitOutcome.failed msg, polls, fetch⟩).ops =
        [Op.submitOp "PT" (languageMapGet tl "EN-US")] ∧
      Op.pollOp ∉ (process_translation_task (some (newTask id fn tl))
          ⟨SubmitOutcome.failed msg, polls, fetch⟩).ops ∧
      (process_translation_task (some (newTask id fn tl))
          ⟨SubmitOutcome.failed msg, polls, fetch⟩).cleanups = 1) ∧
    (∀ (task : Option Task) (env : Env),
      (process_translation_task task env).cleanups =
        if (process_translation_task task env).finished = true then 1 else 0) := by
  constructor
  · intro id fn tl msg polls fetch
    refine ⟨rfl, rfl, rfl, ?_, rfl⟩
    intro hm
    have hm2 : Op.pollOp ∈ [Op.submitOp "PT" (languageMapGet tl "EN-US")] := hm
    exact Op.noConfusion (List.mem_singleton.mp hm2)
  · intro task env
    obtain ⟨sub, polls, fetch⟩ := env
    cases task with
    | none => rfl
    | some t0 => cases sub <;> rfl

/-- Claim C8, counterexample: an absolute-path filename is *not* rejected
with 400: `"/etc/passwd"` contains no `".."`, its leading separator is
replaced by `'_'` during sanitisation and then stripped, and the handler
goes on to perform the filesystem lookup (returning 404 here). -/
theorem c8_absolute_path_counterexample :
    headIsSep "/etc/passwd".data = true ∧
    hasDotDot "/etc/passwd".data = false ∧
    download_file_route [] "/etc/passwd" = (DlResult.notFound, true) := by
  decide

/-- Claim C8 (amended): every download request whose filename contains the
path-traversal sequence `".."` is rejected with 400 and never reaches the
filesystem lookup — `'.'` survives both the character sanitisation and the
underscore stripping, so the `".."` check always fires.  (Absolute paths
are instead sanitised and looked up, as the counterexample shows.) -/
theorem c8_traversal_rejected (folder : List String) (filename : String)
    (h : hasDotDot filename.data = true) :
    download_file_route folder filename = (DlResult.badRequest, false) := by
  have hs : hasDotDot
      (String.mk (stripUnders (filename.data.map sanitizeDlChar))).data = true :=
    hasDotDot_stripUnders _ (hasDotDot_map_sanitizeDl _ h)
  simp [download_file_route, hs]

/-- Claim C8, witness: the classic traversal request is rejected without a
lookup. -/
theorem c8_traversal_witness :
    download_file_route ["x.txt"] "../../etc/passwd" =
      (DlResult.badRequest, false) :=
  c8_traversal_rejected ["x.txt"] "../../etc/passwd" (by decide)

/-- Claim C9, counterexample: two distinct jobs — different task ids and
even different original filenames (`"a b.txt"` vs `"a?b.txt"`) — produce
the same output path `"a_b_translated_en.txt"`: the derivation depends only
on the sanitised original name and target language, so collisions are not
avoided. -/
theorem c9_collision_counterexample :
    ¬ ("a b.txt" : String) = "a?b.txt" ∧
    outputFilename "a b.txt" "en" = outputFilename "a?b.txt" "en" ∧
    (process_translation_task (some (newTask "j9a" "a b.txt" "en"))
        c9Env).files =
      (process_translation_task (some (newTask "j9b" "a?b.txt" "en"))
        c9Env).files ∧
    (process_translation_task (some (newTask "j9a" "a b.txt" "en"))
        c9Env).files = ["a_b_translated_en.txt"] := by
  decide

/-- Claim C9 (amended): each job's output filename is derived
deterministically — sanitised base name (characters outside the
alphanumeric/underscore/hyphen set replaced by `'_'`, underscores trimmed
at the ends) + `"_translated_"` + the raw target language + the original
extension — and any file a run persists is exactly that name.  The name
depends only on the original filename and target language (not on the job
id), so two jobs sharing those collide. -/
theorem c9_output_name_deterministic (id fn tl : String) (env : Env)
    (h : (process_translation_task (some (newTask id fn tl)) env).files ≠ []) :
    (process_translation_task (some (newTask id fn tl)) env).files =
      [outputFilename fn tl] :=
  (process_good id fn tl env).filesOk.resolve_left h

/-- Claim C9, witness: a successful run persists exactly the derived
output filename. -/
theorem c9_output_witness :
    (process_translation_task (some (newTask "j9w" "doc.txt" "en"))
        c9wEnv).files = [outputFilename "doc.txt" "en"] :=
  c9_output_name_deterministic "j9w" "doc.txt" "en" c9wEnv (by decide)

/-- Claim C10: every worker run issues its provider submit with source
language fixed to `"PT"` and the target language mapped through
`LANGUAGE_MAP` — `"pt" ↦ "PT"`, `"en" ↦ "EN-US"`, and every other
client-supplied value silently mapped to the default `"EN-US"`. -/
theorem c10_language_mapping :
    (∀ (id fn tl : String) (env : Env),
      (process_translation_task (some (newTask id fn tl)) env).ops.head? =
        some (Op.submitOp "PT" (languageMapGet tl "EN-US"))) ∧
    languageMapGet "pt" "EN-US" = "PT" ∧
    languageMapGet "en" "EN-US" = "EN-US" ∧
    (∀ s : String, s ≠ "pt" → s ≠ "en" →
      languageMapGet s "EN-US" = "EN-US") := by
  refine ⟨?_, rfl, rfl, ?_⟩
  · intro id fn tl env
    obtain ⟨sub, polls, fetch⟩ := env
    cases sub <;> rfl
  · intro s h1 h2
    have e1 : (s == "pt") = false := beq_eq_false_iff_ne.mpr h1
    have e2 : (s == "en") = false := beq_eq_false_iff_ne.mpr h2
    simp [languageMapGet, LANGUAGE_MAP, List.lookup, e1, e2]

/-- Claim C10, witness: the mapping theorem applied to the unlisted language
`"fr"` and to a concrete run. -/
theorem c10_language_mapping_witness :
    languageMapGet "fr" "EN-US" = "EN-US" ∧
    (process_translation_task (some (newTask "j10" "doc.txt" "fr"))
        c10wEnv).ops.head? = some (Op.submitOp "PT" (languageMapGet "fr" "EN-US")) :=
  ⟨c10_language_mapping.2.2.2 "fr" (by decide) (by decide),
   c10_language_mapping.1 "j10" "doc.txt" "fr" c10wEnv⟩

end TranslateAPI
